import Mathlib

/-!
Shallow embedding of `src/eval.cpp` (JITxpr): a Pratt parser producing
S-expression trees, their postfix rendering, and the RPN stack-machine
backend that compiles the rendering to push/arith instructions.

Conventions of the embedding:
* C `int` values are modelled as `Int`; arithmetic is exact (the inputs
  of the claims stay far from 32-bit overflow, and division uses the
  C-style truncation `Int.tdiv`, matching `jit_divr` on in-range values).
* The recursive parser `expr_bp` and its lookahead loop are modelled
  with an explicit fuel parameter: every call and every loop iteration
  consumes one unit, so an input diverges in the C++ program exactly
  when the model returns `fuelOut` at every fuel.
* The lexer builds its token vector eagerly, reverses it and pops from
  the back; the model keeps the tokens in reading order in a `List` and
  takes them from the front, which is the same stream.
-/

namespace JITxpr

/-- Token kinds of the lexer (`enum class TokenType` in the source). -/
inductive TokenType where
  | atom
  | op
  | eof
deriving DecidableEq, Repr

/-- A lexer token: kind plus textual value (`struct Token`). -/
structure Token where
  type : TokenType
  value : String
deriving DecidableEq, Repr

/-- The end-marker token; `Token(TokenType t, string v = "")` gives it an
empty value. -/
def eofTok : Token := ⟨.eof, ""⟩

/-- C `isspace` in the ASCII locale: space, \t, \n, \v, \f, \r. -/
def isSpaceC (c : Char) : Bool :=
  c = ' ' || c = '\t' || c = '\n' || c = '\x0b' || c = '\x0c' || c = '\r'

/-- C `isdigit`: the characters 0..9. -/
def isDigitC (c : Char) : Bool :=
  48 ≤ c.toNat && c.toNat ≤ 57

/-- C `isalnum` in the ASCII locale: digits and latin letters. -/
def isAlnumC (c : Char) : Bool :=
  isDigitC c || (65 ≤ c.toNat && c.toNat ≤ 90) || (97 ≤ c.toNat && c.toNat ≤ 122)

/-- One step of the lexer loop for a character `c` known not to be a
digit, given the tokens of the remaining input: whitespace is skipped,
another alphanumeric character becomes a one-character `atom` token, any
other character becomes a one-character `op` token.  (In the source the
whitespace test comes first even for digits; the order is equivalent
because no character is both a digit and whitespace.) -/
def lexOther (c : Char) (rest : List Token) : List Token :=
  if isSpaceC c then rest
  else if isAlnumC c then ⟨.atom, ⟨[c]⟩⟩ :: rest
  else ⟨.op, ⟨[c]⟩⟩ :: rest

mutual

/-- The scanning loop of the lexer over the input characters
(`Lexer::Lexer`).  A digit starts a maximal digit run, handled by
`lexDigits`. -/
def tokenizeChars : List Char → List Token
  | [] => []
  | c :: cs =>
    if isDigitC c then lexDigits [c] cs
    else lexOther c (tokenizeChars cs)

/-- The inner `while (isdigit)` loop of the lexer: `run` is the digit
run read so far; on the first non-digit boundary character the run is
emitted as one `atom` token and scanning continues at that character. -/
def lexDigits (run : List Char) : List Char → List Token
  | [] => [⟨.atom, ⟨run⟩⟩]
  | c :: cs =>
    if isDigitC c then lexDigits (run ++ [c]) cs
    else ⟨.atom, ⟨run⟩⟩ :: lexOther c (tokenizeChars cs)

end

/-- The whole lexer: scan the text, then append the end-marker token
(`tokens.emplace_back(TokenType::Eof)`). -/
def tokenize (s : String) : List Token :=
  tokenizeChars s.data ++ [eofTok]

/-- `Lexer::peek`: the front token, or the end marker once exhausted. -/
def peek : List Token → Token
  | [] => eofTok
  | t :: _ => t

/-- `Lexer::next`: consume and return the front token, or the end
marker once exhausted. -/
def next : List Token → Token × List Token
  | [] => (eofTok, [])
  | t :: ts => (t, ts)

/-- The S-expression tree built by the parser (`struct S`): a head
string (operator symbol or atom value) and a list of children. -/
inductive S where
  | mk (head : String) (rest : List S)

/-- The head string of a tree node. -/
def S.head : S → String
  | ⟨h, _⟩ => h

/-- The children of a tree node. -/
def S.rest : S → List S
  | ⟨_, r⟩ => r

mutual

/-- `S::to_string`: emit every child followed by a space, then the
head — the postfix rendering of the tree. -/
def S.to_string : S → String
  | ⟨h, cs⟩ => S.list_to_string cs ++ h

/-- The loop over the children inside `S::to_string`: each child is
rendered and followed by one space character. -/
def S.list_to_string : List S → String
  | [] => ""
  | c :: cs => S.to_string c ++ " " ++ S.list_to_string cs

end

/-- `infix_binding_power` of the source: left/right powers of the
binary operators; `(-1, -1)` for a symbol with no such role. -/
def inBindingPower (op : Char) : Int × Int :=
  if op = '=' then (2, 1)
  else if op = '?' then (4, 3)
  else if op = '+' || op = '-' then (5, 6)
  else if op = '*' || op = '/' then (7, 8)
  else if op = '.' then (14, 13)
  else (-1, -1)

/-- `prefix_binding_power` of the source: right power of the unary
operators and of the grouping-open symbol; `-1` for any other symbol. -/
def preBindingPower (op : Char) : Int :=
  if op = '+' || op = '-' then 9
  else if op = '(' then 15
  else -1

/-- `postfix_binding_power` of the source: left power of the unary
suffix operators and of the grouping-close symbol; `-1` otherwise. -/
def postBindingPower (op : Char) : Int :=
  if op = '!' || op = '[' then 11
  else if op = ')' then 12
  else -1

/-- Outcome of a parser call: a tree plus the unconsumed tokens, the
thrown `runtime_error("Unexpected token")`, or fuel exhaustion (the
marker that the C++ code would still be running at this recursion and
iteration budget). -/
inductive PResult where
  | ok (tree : S) (rest : List Token)
  | err
  | fuelOut

mutual

/-- `expr_bp(lexer, min_bp)` of the source, with explicit fuel.  The
head token is consumed and turned into the initial `lhs` (atom,
grouped sub-expression, or a unary application at the right power of
the symbol, which is `-1` when the symbol has no such role); an end
marker
here throws.  Control then enters the lookahead loop. -/
def expr_bp : Nat → List Token → Int → PResult
  | 0, _, _ => .fuelOut
  | fuel + 1, toks, min_bp =>
    let (token, rest) := next toks
    match token.type with
    | .atom => bpLoop fuel (S.mk token.value []) rest min_bp
    | .op =>
      if token.value = "(" then
        match expr_bp fuel rest 0 with
        | .ok lhs rest2 => bpLoop fuel lhs rest2 min_bp
        | r => r
      else
        let r_bp := preBindingPower token.value.front
        match expr_bp fuel rest r_bp with
        | .ok rhs rest2 => bpLoop fuel (S.mk token.value [rhs]) rest2 min_bp
        | r => r
    | .eof => .err

/-- The `while (true)` lookahead loop of `expr_bp`.  An end marker
breaks; an operator lookahead is tried as a suffix operator, then as a
binary operator (the `?` symbol grabbing a middle operand at power 0);
a lookahead of any other shape falls through the body without
consuming anything — the loop just runs again. -/
def bpLoop : Nat → S → List Token → Int → PResult
  | 0, _, _, _ => .fuelOut
  | fuel + 1, lhs, toks, min_bp =>
    let lookahead := peek toks
    match lookahead.type with
    | .eof => .ok lhs toks
    | .op =>
      if postBindingPower lookahead.value.front ≥ min_bp then
        bpLoop fuel (S.mk lookahead.value [lhs]) (next toks).2 min_bp
      else
        let (l_bp, r_bp) := inBindingPower lookahead.value.front
        if l_bp < min_bp then .ok lhs toks
        else
          let rest := (next toks).2
          if lookahead.value.front = '?' then
            match expr_bp fuel rest 0 with
            | .ok mhs rest2 =>
              match expr_bp fuel rest2 r_bp with
              | .ok rhs rest3 =>
                bpLoop fuel (S.mk lookahead.value [lhs, mhs, rhs]) rest3 min_bp
              | r => r
            | r => r
          else
            match expr_bp fuel rest r_bp with
            | .ok rhs rest2 =>
              bpLoop fuel (S.mk lookahead.value [lhs, rhs]) rest2 min_bp
            | r => r
    | .atom => bpLoop fuel lhs toks min_bp

end

/-- `expr(input)` of the source: tokenize and parse at minimum power 0,
with the given fuel budget. -/
def expr (fuel : Nat) (input : String) : PResult :=
  expr_bp fuel (tokenize input) 0

/-- What the REPL prints for a line: `expr(line)->to_string()`, or
nothing when the parse throws (or the budget runs out). -/
def render (fuel : Nat) (input : String) : Option String :=
  match expr fuel input with
  | .ok t _ => some t.to_string
  | _ => none

/-- The four arithmetic operators the backend knows. -/
inductive BinOp where
  | add
  | sub
  | mul
  | div
deriving DecidableEq, Repr

/-- One virtual instruction emitted by `compile_rpn`: `push n` stands
for the `stack_push(JIT_R0); jit_movi(JIT_R0, n)` pair (spill the
current top-of-stack register, load the constant), and `arith o` for
the `stack_pop(JIT_R1); jit_<o>r(JIT_R0, JIT_R1, JIT_R0)` pair. -/
inductive Instr where
  | push (n : Int)
  | arith (o : BinOp)
deriving DecidableEq, Repr

/-- `atoi` on a digit run: its decimal value.  (The 32-byte
`buf` and `int` range are ample for every run appearing here.) -/
def decVal (run : List Char) : Int :=
  Int.ofNat (run.foldl (fun a c => 10 * a + (c.toNat - 48)) 0)

/-- One step of the `compile_rpn` loop for a character `c` that does
not start a digit run, given the instructions compiled from the rest:
the four operators emit their arithmetic instruction, parentheses and
the space character emit nothing, and any other character aborts
(`cannot compile`, modelled as `none`). -/
def compileOp (c : Char) (rest : Option (List Instr)) : Option (List Instr) :=
  if c = '+' then rest.map (Instr.arith .add :: ·)
  else if c = '-' then rest.map (Instr.arith .sub :: ·)
  else if c = '*' then rest.map (Instr.arith .mul :: ·)
  else if c = '/' then rest.map (Instr.arith .div :: ·)
  else if c = '(' || c = ')' || c = ' ' then rest
  else none

mutual

/-- The `while (*expr)` loop of `compile_rpn` over the characters of
the RPN string: a digit starts a maximal digit run (the `sscanf`
with format `%[0-9]%n`), handled by `compileDigits`; anything else is
one `compileOp` step. -/
def compileChars : List Char → Option (List Instr)
  | [] => some []
  | c :: cs =>
    if isDigitC c then compileDigits [c] cs
    else compileOp c (compileChars cs)

/-- The digit run being scanned by `sscanf`: `run` is read so far; at
the first non-digit boundary the run becomes one push instruction and
compilation continues at the boundary character. -/
def compileDigits (run : List Char) : List Char → Option (List Instr)
  | [] => some [.push (decVal run)]
  | c :: cs =>
    if isDigitC c then compileDigits (run ++ [c]) cs
    else (compileOp c (compileChars cs)).map (Instr.push (decVal run) :: ·)

end

/-- `compile_rpn` on a whole string. -/
def compile_rpn (s : String) : Option (List Instr) :=
  compileChars s.data

/-- The C semantics of the four operators: first-popped `JIT_R1` is
the left operand, the register top-of-stack `JIT_R0` the right one —
this function receives them as (left, right).  Division is the
truncated signed division of `jit_divr`. -/
def applyOp : BinOp → Int → Int → Int
  | .add, a, b => a + b
  | .sub, a, b => a - b
  | .mul, a, b => a * b
  | .div, a, b => Int.tdiv a b

/-- Running the compiled code: `r0` is the value of `JIT_R0` (the top
of the evaluation stack), `st` the spilled stack in the `jit_allocai`
area.  `push n` spills `r0` and loads `n`; `arith o` pops the left
operand into `JIT_R1` and combines.  At the end `jit_retr(JIT_R0)`
returns `r0`, whatever is left on the spill stack.  A pop from an
empty spill stack would read memory below the allocation; that
undefined behavior is modelled as `none`. -/
def execInstrs : List Instr → Int → List Int → Option Int
  | [], r0, _ => some r0
  | .push n :: rest, r0, st => execInstrs rest n (r0 :: st)
  | .arith o :: rest, r0, st =>
    match st with
    | [] => none
    | r1 :: st2 => execInstrs rest (applyOp o r1 r0) st2

/-- `eval(line)` followed by a call of the returned function pointer:
compile the RPN string and run it.  `r0` is the (uninitialized)
initial value of `JIT_R0`; a well-formed RPN never reads it. -/
def runRPN (s : String) (r0 : Int) : Option Int :=
  (compile_rpn s).bind fun is => execInstrs is r0 []

/-- The substitution under which the backend provably ignores
parentheses: each of `(` and `)` is turned into the one other
character the compiler skips, the space. -/
def parenToSpace (c : Char) : Char :=
  if c = '(' || c = ')' then ' ' else c

/-- Well-formedness of one non-end token, as the tokenizer rules state
it: an atom holding a nonempty run of digits, an atom holding one
other alphanumeric character, or an operator holding one character
that is neither alphanumeric nor whitespace. -/
def tokWF (t : Token) : Prop :=
  (t.type = TokenType.atom ∧ t.value.data ≠ [] ∧ ∀ c ∈ t.value.data, isDigitC c = true)
  ∨ (t.type = TokenType.atom ∧
      ∃ c, t.value.data = [c] ∧ isAlnumC c = true ∧ isDigitC c = false)
  ∨ (t.type = TokenType.op ∧
      ∃ c, t.value.data = [c] ∧ isAlnumC c = false ∧ isSpaceC c = false)

/-- The tokenizer contract as the spec words it, written independently
of the scanning loop above: consecutive digit characters merge into
one numeric leaf token — the maximal run, taken in one step here —
any other alphanumeric character becomes a one-character leaf token,
all remaining non-whitespace characters become one-character operator
tokens, and whitespace is skipped. -/
def tokenizeSpecChars : List Char → List Token
  | [] => []
  | c :: cs =>
    if isSpaceC c then tokenizeSpecChars cs
    else if isDigitC c then
      ⟨.atom, ⟨c :: cs.takeWhile isDigitC⟩⟩ ::
        tokenizeSpecChars (cs.dropWhile isDigitC)
    else if isAlnumC c then ⟨.atom, ⟨[c]⟩⟩ :: tokenizeSpecChars cs
    else ⟨.op, ⟨[c]⟩⟩ :: tokenizeSpecChars cs
termination_by cs => cs.length
decreasing_by
  · simp
  · exact Nat.lt_succ_of_le (List.dropWhile_suffix _).length_le
  · simp
  · simp

/-- The spec-side token sequence of a whole input: the rule-described
tokens, terminated by exactly one end marker. -/
def tokenizeSpec (s : String) : List Token :=
  tokenizeSpecChars s.data ++ [eofTok]

/-! ## Helper lemmas -/

/-- A lookahead of atom shape makes the parser loop spin: the body
consumes nothing and returns nothing, so the fuel always runs out. -/
theorem bpLoop_atom_spin :
    ∀ (fuel : Nat) (lhs : S) (ts : List Token) (bp : Int),
      (peek ts).type = TokenType.atom → bpLoop fuel lhs ts bp = .fuelOut := by
  intro fuel
  induction fuel with
  | zero => intro lhs ts bp _; rfl
  | succ f ih =>
    intro lhs ts bp h
    cases ts with
    | nil => simp [peek, eofTok] at h
    | cons t rest =>
      obtain ⟨ty, v⟩ := t
      cases ty with
      | atom =>
        show bpLoop f lhs (⟨TokenType.atom, v⟩ :: rest) bp = .fuelOut
        exact ih lhs (⟨TokenType.atom, v⟩ :: rest) bp h
      | op => simp [peek] at h
      | eof => simp [peek] at h

/-- Appending strings appends their character lists. -/
theorem data_append (a b : String) : (a ++ b).data = a.data ++ b.data := rfl

/-- The child loop of `S::to_string`, characterized: the rendered
children in order, each followed by one space. -/
theorem list_to_string_data :
    ∀ cs : List S,
      (S.list_to_string cs).data = (cs.map fun c => c.to_string.data ++ [' ']).flatten := by
  intro cs
  induction cs with
  | nil => rfl
  | cons c cs ih =>
    show (S.to_string c ++ " " ++ S.list_to_string cs).data = _
    rw [data_append, data_append, ih]
    simp

/-- No character is both a digit and whitespace. -/
theorem isSpaceC_eq_false_of_digit {c : Char} (hd : isDigitC c = true) :
    isSpaceC c = false := by
  by_contra h
  rw [Bool.not_eq_false] at h
  simp only [isSpaceC, Bool.or_eq_true, decide_eq_true_eq] at h
  rcases h with ((((h | h) | h) | h) | h) | h <;> subst h <;> revert hd <;> decide

/-- On a non-digit head the spec-side tokenizer takes exactly one
`lexOther` step. -/
theorem tokenizeSpecChars_cons_of_not_digit {c : Char} (cs : List Char)
    (hd : isDigitC c = false) :
    tokenizeSpecChars (c :: cs) = lexOther c (tokenizeSpecChars cs) := by
  simp only [tokenizeSpecChars, lexOther]
  by_cases hs : isSpaceC c
  · simp [hs]
  · by_cases ha : isAlnumC c
    · simp [hs, ha, hd]
    · simp [hs, ha, hd]

/-- The scanning loop of the source lexer computes exactly the
spec-described token sequence, in both of its modes: outside a digit
run, and inside one with `run` already read (where the emitted atom is
`run` extended by the maximal digit prefix of the remaining input). -/
theorem tokenizeChars_eq_spec :
    ∀ cs : List Char,
      tokenizeChars cs = tokenizeSpecChars cs ∧
      ∀ run, lexDigits run cs
        = ⟨.atom, ⟨run ++ cs.takeWhile isDigitC⟩⟩ ::
            tokenizeSpecChars (cs.dropWhile isDigitC) := by
  intro cs
  induction cs with
  | nil =>
    constructor
    · simp [tokenizeChars, tokenizeSpecChars]
    · intro run
      simp [lexDigits, List.takeWhile, List.dropWhile, tokenizeSpecChars]
  | cons c cs ih =>
    constructor
    · by_cases hd : isDigitC c
      · rw [show tokenizeChars (c :: cs) = lexDigits [c] cs by
          simp [tokenizeChars, hd]]
        rw [ih.2 [c]]
        rw [show tokenizeSpecChars (c :: cs)
            = ⟨.atom, ⟨c :: cs.takeWhile isDigitC⟩⟩ ::
                tokenizeSpecChars (cs.dropWhile isDigitC) by
          simp [tokenizeSpecChars, hd, isSpaceC_eq_false_of_digit hd]]
        rfl
      · rw [show tokenizeChars (c :: cs) = lexOther c (tokenizeChars cs) by
          simp [tokenizeChars, hd]]
        rw [ih.1, tokenizeSpecChars_cons_of_not_digit cs (Bool.eq_false_iff.mpr hd)]
    · intro run
      by_cases hd : isDigitC c
      · rw [show lexDigits run (c :: cs) = lexDigits (run ++ [c]) cs by
          simp [lexDigits, hd]]
        rw [ih.2 (run ++ [c])]
        rw [List.takeWhile_cons_of_pos hd, List.dropWhile_cons_of_pos hd]
        simp [List.append_assoc]
      · rw [show lexDigits run (c :: cs)
            = ⟨.atom, ⟨run⟩⟩ :: lexOther c (tokenizeChars cs) by
          simp [lexDigits, hd]]
        rw [ih.1, ← tokenizeSpecChars_cons_of_not_digit cs (Bool.eq_false_iff.mpr hd)]
        rw [List.takeWhile_cons_of_neg (by simp [hd]),
            List.dropWhile_cons_of_neg (by simp [hd])]
        simp

/-- In the lookahead loop, an operator lookahead with neither a
suffix nor a binary entry stops the loop whenever the minimum binding
power is at least 0: the sentinel `-1` fails the suffix test and
satisfies the binary `l_bp < min_bp` break, so the tree built so far
is returned with the stream untouched. -/
theorem bpLoop_unbound_stop (fuel : Nat) (lhs : S) (v : String)
    (rest : List Token) (min_bp : Int)
    (hpost : postBindingPower v.front = -1)
    (hin : (inBindingPower v.front).1 = -1)
    (hbp : 0 ≤ min_bp) :
    bpLoop (fuel + 1) lhs (⟨TokenType.op, v⟩ :: rest) min_bp
      = .ok lhs (⟨TokenType.op, v⟩ :: rest) := by
  have h1 : ¬ postBindingPower v.front ≥ min_bp := by rw [hpost]; omega
  have h2 : (inBindingPower v.front).1 < min_bp := by rw [hin]; omega
  simp only [bpLoop, peek]
  rw [if_neg h1]
  rcases hp : inBindingPower v.front with ⟨l, r⟩
  rw [hp] at h2
  simp only [if_pos h2]

/-- In the lookahead loop at minimum binding power at most `-1` —
reachable through the sentinel `-1` of an operator with no entry in
the unary-head table — the suffix test `-1 >= min_bp` succeeds for an
operator with no suffix entry, so the loop consumes it and wraps the
tree built so far in a one-child node headed by it. -/
theorem bpLoop_unbound_consume (fuel : Nat) (lhs : S) (v : String)
    (rest : List Token) (min_bp : Int)
    (hpost : postBindingPower v.front = -1)
    (hbp : min_bp ≤ -1) :
    bpLoop (fuel + 1) lhs (⟨TokenType.op, v⟩ :: rest) min_bp
      = bpLoop fuel (S.mk v [lhs]) rest min_bp := by
  have h1 : postBindingPower v.front ≥ min_bp := by rw [hpost]; omega
  simp only [bpLoop, peek, next]
  rw [if_pos h1]

/-- `lexOther` only adds well-shaped non-end tokens. -/
theorem lexOther_sound (c : Char) (rest : List Token)
    (hc : isDigitC c = false)
    (hrest : ∀ t ∈ rest, t.type ≠ TokenType.eof ∧ tokWF t) :
    ∀ t ∈ lexOther c rest, t.type ≠ TokenType.eof ∧ tokWF t := by
  intro t ht
  unfold lexOther at ht
  by_cases hs : isSpaceC c
  · rw [if_pos hs] at ht
    exact hrest t ht
  · rw [if_neg hs] at ht
    by_cases ha : isAlnumC c
    · rw [if_pos ha] at ht
      rcases List.mem_cons.mp ht with h | h
      · subst h
        exact ⟨by simp, Or.inr (Or.inl ⟨rfl, c, rfl, ha, hc⟩)⟩
      · exact hrest t h
    · rw [if_neg ha] at ht
      rcases List.mem_cons.mp ht with h | h
      · subst h
        refine ⟨by simp, Or.inr (Or.inr ⟨rfl, c, rfl, ?_, ?_⟩)⟩
        · exact Bool.not_eq_true _ ▸ by simpa using ha
        · exact Bool.not_eq_true _ ▸ by simpa using hs
      · exact hrest t h

/-- Every token the scanning loop emits (in either mode) is non-end
and well shaped. -/
theorem tokenizeChars_sound :
    ∀ cs : List Char,
      (∀ t ∈ tokenizeChars cs, t.type ≠ TokenType.eof ∧ tokWF t) ∧
      (∀ run, run ≠ [] → (∀ c ∈ run, isDigitC c = true) →
        ∀ t ∈ lexDigits run cs, t.type ≠ TokenType.eof ∧ tokWF t) := by
  intro cs
  induction cs with
  | nil =>
    constructor
    · intro t ht
      simp [tokenizeChars] at ht
    · intro run hne hdig t ht
      simp only [lexDigits, List.mem_singleton] at ht
      subst ht
      exact ⟨by simp, Or.inl ⟨rfl, by simpa using hne, hdig⟩⟩
  | cons c cs ih =>
    constructor
    · intro t ht
      by_cases hd : isDigitC c
      · rw [show tokenizeChars (c :: cs) = lexDigits [c] cs by
          simp [tokenizeChars, hd]] at ht
        exact ih.2 [c] (by simp) (by simpa using hd) t ht
      · rw [show tokenizeChars (c :: cs) = lexOther c (tokenizeChars cs) by
          simp [tokenizeChars, hd]] at ht
        exact lexOther_sound c _ (by simpa using hd) ih.1 t ht
    · intro run hne hdig t ht
      by_cases hd : isDigitC c
      · rw [show lexDigits run (c :: cs) = lexDigits (run ++ [c]) cs by
          simp [lexDigits, hd]] at ht
        refine ih.2 (run ++ [c]) (by simp) ?_ t ht
        intro x hx
        rcases List.mem_append.mp hx with h | h
        · exact hdig x h
        · rw [List.mem_singleton.mp h]
          exact hd
      · rw [show lexDigits run (c :: cs) = ⟨.atom, ⟨run⟩⟩ :: lexOther c (tokenizeChars cs) by
          simp [lexDigits, hd]] at ht
        rcases List.mem_cons.mp ht with h | h
        · subst h
          exact ⟨by simp, Or.inl ⟨rfl, by simpa using hne, hdig⟩⟩
        · exact lexOther_sound c _ (by simpa using hd) ih.1 t h

/-- Digits are not parentheses, so the substitution fixes them. -/
theorem parenToSpace_of_digit {c : Char} (hd : isDigitC c = true) :
    parenToSpace c = c := by
  have h1 : c ≠ '(' := by
    intro h; subst h; simp [isDigitC] at hd
  have h2 : c ≠ ')' := by
    intro h; subst h; simp [isDigitC] at hd
  simp [parenToSpace, h1, h2]

/-- The substitution never creates or destroys a digit. -/
theorem parenToSpace_digit (c : Char) : isDigitC (parenToSpace c) = isDigitC c := by
  by_cases h1 : c = '('
  · subst h1; rfl
  · by_cases h2 : c = ')'
    · subst h2; rfl
    · simp [parenToSpace, h1, h2]

/-- The compiler treats `(`, `)` and the space identically, so its
non-digit step is invariant under the substitution. -/
theorem compileOp_parenToSpace (c : Char) (r : Option (List Instr)) :
    compileOp (parenToSpace c) r = compileOp c r := by
  by_cases h1 : c = '('
  · subst h1; rfl
  · by_cases h2 : c = ')'
    · subst h2; rfl
    · rw [show parenToSpace c = c by simp [parenToSpace, h1, h2]]

/-- Replacing every parenthesis by a space changes nothing about the
compiled instruction sequence, in either scanning mode. -/
theorem compileChars_parenToSpace :
    ∀ cs : List Char,
      compileChars (cs.map parenToSpace) = compileChars cs ∧
      ∀ run, compileDigits run (cs.map parenToSpace) = compileDigits run cs := by
  intro cs
  induction cs with
  | nil => exact ⟨rfl, fun _ => rfl⟩
  | cons c cs ih =>
    constructor
    · show compileChars (parenToSpace c :: cs.map parenToSpace) = _
      by_cases hd : isDigitC c
      · rw [parenToSpace_of_digit hd]
        simp only [compileChars, hd, if_true]
        exact ih.2 [c]
      · simp only [compileChars, parenToSpace_digit, compileOp_parenToSpace, ih.1]
        simp [hd]
    · intro run
      show compileDigits run (parenToSpace c :: cs.map parenToSpace) = _
      by_cases hd : isDigitC c
      · rw [parenToSpace_of_digit hd]
        simp only [compileDigits, hd, if_true]
        exact ih.2 (run ++ [c])
      · simp only [compileDigits, parenToSpace_digit, compileOp_parenToSpace, ih.1]
        simp [hd]

/-! ## Claim theorems -/

/-- C1: the claim states that parsing `(3 + 4) * 5` linearizes to
`3 4 + 5 *`.  On the code, the closing parenthesis — registered as a
suffix operator of power 12 — is consumed inside the right operand of
`+`, so the rendering is `3 4 ) 5 * +` instead, at every sufficient
fuel: the claim (and the `test_parentheses`
assertion of the repository itself) fails on the code. -/
theorem grouping_claim_fails_on_code :
    (∀ fuel : Nat, render (fuel + 30) "(3 + 4) * 5" = some "3 4 ) 5 * +")
    ∧ (∀ fuel : Nat, render (fuel + 30) "(3 + 4) * 5" ≠ some "3 4 + 5 *") := by
  refine ⟨fun _ => rfl, fun fuel h => ?_⟩
  rw [show render (fuel + 30) "(3 + 4) * 5" = some "3 4 ) 5 * +" from rfl] at h
  simp at h

/-- Witness for C1 at fuel 30. -/
theorem grouping_claim_fails_on_code_witness :
    render 30 "(3 + 4) * 5" = some "3 4 ) 5 * +" :=
  grouping_claim_fails_on_code.1 0

/-- C2: the claim states that every parse terminates, each loop
iteration consuming a token or returning, and in particular that the
two-leaf inputs terminate.  On the code, an atom lookahead makes the
loop body fall through without consuming or returning, so parsing
`456 789` (asserted by `test_no_operators` in the repository) and
`3 4` exhausts every fuel bound: the parse never terminates. -/
theorem adjacent_atoms_parse_diverges :
    (∀ fuel : Nat, expr fuel "456 789" = .fuelOut)
    ∧ (∀ fuel : Nat, expr fuel "3 4" = .fuelOut) := by
  constructor
  · intro fuel
    cases fuel with
    | zero => rfl
    | succ f =>
      show bpLoop f (S.mk "456" []) [⟨.atom, "789"⟩, eofTok] 0 = .fuelOut
      exact bpLoop_atom_spin f _ _ _ rfl
  · intro fuel
    cases fuel with
    | zero => rfl
    | succ f =>
      show bpLoop f (S.mk "3" []) [⟨.atom, "4"⟩, eofTok] 0 = .fuelOut
      exact bpLoop_atom_spin f _ _ _ rfl

/-- Witness for C2 at fuel 500. -/
theorem adjacent_atoms_parse_diverges_witness :
    expr 500 "456 789" = .fuelOut ∧ expr 500 "3 4" = .fuelOut :=
  ⟨adjacent_atoms_parse_diverges.1 500, adjacent_atoms_parse_diverges.2 500⟩

/-- C3: the claim states that re-parsing the postfix rendering of any
pure `+ - * /` expression and re-rendering is the identity.  On the
code, `3 + 4` renders to `3 4 +`, but re-parsing `3 4 +` puts two
atom tokens side by side, which makes the parser loop spin at every
fuel bound — the round trip never returns for any rendering with at
least one operator. -/
theorem roundtrip_reparse_diverges :
    (∀ fuel : Nat, render (fuel + 30) "3 + 4" = some "3 4 +")
    ∧ (∀ fuel : Nat, expr fuel "3 4 +" = .fuelOut) := by
  refine ⟨fun _ => rfl, fun fuel => ?_⟩
  cases fuel with
  | zero => rfl
  | succ f =>
    show bpLoop f (S.mk "3" []) [⟨.atom, "4"⟩, ⟨.op, "+"⟩, eofTok] 0 = .fuelOut
    exact bpLoop_atom_spin f _ _ _ rfl

/-- Witness for C3 at fuel 30 and 500. -/
theorem roundtrip_reparse_diverges_witness :
    render 30 "3 + 4" = some "3 4 +" ∧ expr 500 "3 4 +" = .fuelOut :=
  ⟨roundtrip_reparse_diverges.1 0, roundtrip_reparse_diverges.2 500⟩

/-- C4, counterexample: the claim states that `=3`, whose `=` has no
entry in the unary-head binding-power table, fails with an error and
no tree.  The code instead returns the one-child tree whose rendering
is `3 =`. -/
theorem unbound_role_counterexample :
    expr 30 "=3" = .ok (S.mk "=" [S.mk "3" []]) [eofTok]
    ∧ render 30 "=3" = some "3 =" :=
  ⟨rfl, rfl⟩

/-- C4, amended: an operator with no entry for the role being
attempted does not raise an error.  At the head position it is parsed
as a unary operator with the sentinel power `-1` and wraps its operand
(`=3` yields the tree rendering `3 =`).  In the lookahead loop, a
symbol with neither a suffix nor a binary entry stops the loop
whenever the minimum binding power is at least 0, returning the tree
built so far with the offending tokens unconsumed (`3 # 4` returns
the atom `3` with `# 4` left in the stream); but at minimum binding
power `-1` — reached exactly inside the operand of an unbound unary
head — the sentinel passes the suffix test `-1 >= -1` and the
unbound symbol is consumed as a suffix operator (`=3#` parses to the
tree rendering `3 # =`, and `=3#4` then diverges on the adjacent atom
that follows).  The only parse error is the `Unexpected token` throw
when a token is needed and the end marker arrives. -/
theorem unbound_role_behavior :
    (∀ fuel : Nat, expr (fuel + 30) "=3" = .ok (S.mk "=" [S.mk "3" []]) [eofTok])
    ∧ (∀ (fuel : Nat) (lhs : S) (v : String) (rest : List Token) (min_bp : Int),
        postBindingPower v.front = -1 → (inBindingPower v.front).1 = -1 →
        0 ≤ min_bp →
        bpLoop (fuel + 1) lhs (⟨TokenType.op, v⟩ :: rest) min_bp
          = .ok lhs (⟨TokenType.op, v⟩ :: rest))
    ∧ (∀ (fuel : Nat) (lhs : S) (v : String) (rest : List Token) (min_bp : Int),
        postBindingPower v.front = -1 → min_bp ≤ -1 →
        bpLoop (fuel + 1) lhs (⟨TokenType.op, v⟩ :: rest) min_bp
          = bpLoop fuel (S.mk v [lhs]) rest min_bp)
    ∧ (∀ fuel : Nat,
        expr (fuel + 30) "3 # 4" = .ok (S.mk "3" []) [⟨.op, "#"⟩, ⟨.atom, "4"⟩, eofTok])
    ∧ (∀ fuel : Nat,
        expr (fuel + 30) "=3#" = .ok (S.mk "=" [S.mk "#" [S.mk "3" []]]) [eofTok])
    ∧ (∀ fuel : Nat, expr fuel "=3#4" = .fuelOut)
    ∧ (∀ fuel : Nat, expr_bp (fuel + 1) [eofTok] 0 = .err)
    ∧ preBindingPower '=' = -1 ∧ inBindingPower '#' = (-1, -1)
    ∧ postBindingPower '#' = -1 := by
  refine ⟨fun _ => rfl, bpLoop_unbound_stop, bpLoop_unbound_consume,
    fun _ => rfl, fun _ => rfl, ?_, fun _ => rfl, rfl, rfl, rfl⟩
  intro fuel
  cases fuel with
  | zero => rfl
  | succ f =>
    have inner :
        expr_bp f [⟨.atom, "3"⟩, ⟨.op, "#"⟩, ⟨.atom, "4"⟩, eofTok] (-1) = .fuelOut := by
      cases f with
      | zero => rfl
      | succ g =>
        show bpLoop g (S.mk "3" []) [⟨.op, "#"⟩, ⟨.atom, "4"⟩, eofTok] (-1) = .fuelOut
        cases g with
        | zero => rfl
        | succ i =>
          show bpLoop i (S.mk "#" [S.mk "3" []]) [⟨.atom, "4"⟩, eofTok] (-1) = .fuelOut
          exact bpLoop_atom_spin i _ _ _ rfl
    show (match expr_bp f [⟨.atom, "3"⟩, ⟨.op, "#"⟩, ⟨.atom, "4"⟩, eofTok] (-1) with
          | .ok rhs rest2 => bpLoop f (S.mk "=" [rhs]) rest2 0
          | r => r) = .fuelOut
    rw [inner]

/-- Witness for C4 (amended): the loop-stop instance at minimum power
0, the loop-consume instance at minimum power `-1`, and the
divergence of `=3#4` at fuel 200. -/
theorem unbound_role_behavior_witness :
    bpLoop 1 (S.mk "3" []) [⟨.op, "#"⟩, ⟨.atom, "4"⟩, eofTok] 0
      = .ok (S.mk "3" []) [⟨.op, "#"⟩, ⟨.atom, "4"⟩, eofTok]
    ∧ bpLoop 1 (S.mk "3" []) [⟨.op, "#"⟩, eofTok] (-1)
      = bpLoop 0 (S.mk "#" [S.mk "3" []]) [eofTok] (-1)
    ∧ expr 200 "=3#4" = .fuelOut :=
  ⟨unbound_role_behavior.2.1 0 (S.mk "3" []) "#" [⟨.atom, "4"⟩, eofTok] 0
      rfl rfl (by decide),
   unbound_role_behavior.2.2.1 0 (S.mk "3" []) "#" [eofTok] (-1)
      rfl (by decide),
   unbound_role_behavior.2.2.2.2.2.1 200⟩

/-- C5: the compiled stack program pops the right operand first (it
lives in the top-of-stack register `JIT_R0`) and the left operand
second, so `3 4 +` evaluates to `7` and `10 5 -` to `5`, not `-5` —
for every junk value the uninitialized `JIT_R0` may start with. -/
theorem backend_operand_order :
    (∀ r0 : Int, runRPN "3 4 +" r0 = some 7)
    ∧ (∀ r0 : Int, runRPN "10 5 -" r0 = some 5) :=
  ⟨fun _ => rfl, fun _ => rfl⟩

/-- Witness for C5 with initial register value 0. -/
theorem backend_operand_order_witness :
    runRPN "3 4 +" 0 = some 7 ∧ runRPN "10 5 -" 0 = some 5 :=
  ⟨backend_operand_order.1 0, backend_operand_order.2 0⟩

/-- C6: multiplication binds tighter than addition on both sides —
`3 + 4 * 5` renders `3 4 5 * +` and `3 * 4 + 5` renders `3 4 * 5 +` —
and the binary binding powers are the pairs (5,6) for `+ -` and (7,8)
for `* /` exactly as the claim states. -/
theorem precedence_ordering :
    (∀ fuel : Nat, render (fuel + 30) "3 + 4 * 5" = some "3 4 5 * +")
    ∧ (∀ fuel : Nat, render (fuel + 30) "3 * 4 + 5" = some "3 4 * 5 +")
    ∧ inBindingPower '+' = (5, 6) ∧ inBindingPower '-' = (5, 6)
    ∧ inBindingPower '*' = (7, 8) ∧ inBindingPower '/' = (7, 8) :=
  ⟨fun _ => rfl, fun _ => rfl, rfl, rfl, rfl, rfl⟩

/-- Witness for C6 at fuel 30. -/
theorem precedence_ordering_witness :
    render 30 "3 + 4 * 5" = some "3 4 5 * +"
    ∧ render 30 "3 * 4 + 5" = some "3 4 * 5 +" :=
  ⟨precedence_ordering.1 0, precedence_ordering.2.1 0⟩

/-- C7: parsing the lone `=`, an operator with no valid unary-head
role, throws the parse error (the `Unexpected token` raised when the
recursive operand parse meets the end marker) and returns no tree, at
every sufficient fuel. -/
theorem bare_op_parse_error :
    ∀ fuel : Nat, expr (fuel + 2) "=" = .err :=
  fun _ => rfl

/-- Witness for C7 at fuel 2. -/
theorem bare_op_parse_error_witness : expr 2 "=" = .err :=
  bare_op_parse_error 0

/-- C8: the serialization of any tree node is exactly the
serializations of its children in left-to-right order, each followed
by the one-space separator, followed by the head of the node itself. -/
theorem serialization_children_then_head :
    ∀ (h : String) (cs : List S),
      (S.mk h cs).to_string.data
        = (cs.map fun c => c.to_string.data ++ [' ']).flatten ++ h.data := by
  intro h cs
  show (S.list_to_string cs ++ h).data = _
  rw [data_append, list_to_string_data]

/-- Witness for C8 on the node rendering `3 4 +`. -/
theorem serialization_children_then_head_witness :
    (S.mk "+" [S.mk "3" [], S.mk "4" []]).to_string.data
      = ([S.mk "3" [], S.mk "4" []].map fun c => c.to_string.data ++ [' ']).flatten
        ++ "+".data :=
  serialization_children_then_head "+" [S.mk "3" [], S.mk "4" []]

/-- C9: for every input text, the token sequence the lexer produces
is exactly the spec-described one — in input order: one numeric leaf
token per maximal run of consecutive digit characters (taken in one
step by `tokenizeSpecChars` via takeWhile/dropWhile), one
one-character leaf token per other alphanumeric character, one
one-character operator token per remaining non-whitespace character,
whitespace skipped, and exactly one end marker closing the sequence;
the cursor operations peek/next deliver the stream in order and
produce the end marker once exhausted.  The concrete stream of
`12a + 3` exhibits each rule, including run maximality. -/
theorem tokenizer_spec :
    (∀ s : String, tokenize s = tokenizeSpec s)
    ∧ (∀ s : String, ∃ ts, tokenize s = ts ++ [eofTok]
      ∧ ∀ t ∈ ts, t.type ≠ TokenType.eof)
    ∧ (∀ s : String, ∀ t ∈ tokenize s, t = eofTok ∨ tokWF t)
    ∧ (peek [] = eofTok ∧ next [] = (eofTok, [])
        ∧ ∀ t ts, peek (t :: ts) = t ∧ next (t :: ts) = (t, ts))
    ∧ tokenize "12a + 3"
        = [⟨.atom, "12"⟩, ⟨.atom, "a"⟩, ⟨.op, "+"⟩, ⟨.atom, "3"⟩, eofTok] := by
  refine ⟨?_, ?_, ?_, ⟨rfl, rfl, fun t ts => ⟨rfl, rfl⟩⟩, by decide⟩
  · intro s
    unfold tokenize tokenizeSpec
    rw [(tokenizeChars_eq_spec s.data).1]
  · intro s
    exact ⟨tokenizeChars s.data, rfl,
      fun t ht => ((tokenizeChars_sound s.data).1 t ht).1⟩
  · intro s t ht
    rcases List.mem_append.mp ht with h | h
    · exact Or.inr ((tokenizeChars_sound s.data).1 t h).2
    · exact Or.inl (List.mem_singleton.mp h)

/-- Witness for C9: the source/spec tokenizer agreement at the input
`12a + 3`, and the shape of its first token. -/
theorem tokenizer_spec_witness :
    tokenize "12a + 3" = tokenizeSpec "12a + 3"
    ∧ ((⟨.atom, "12"⟩ : Token) = eofTok ∨ tokWF ⟨.atom, "12"⟩) :=
  ⟨tokenizer_spec.1 "12a + 3",
   tokenizer_spec.2.2.1 "12a + 3" ⟨.atom, "12"⟩ (by decide)⟩

/-- C10, counterexample: the claim states that for every input string
the compiled instruction sequence is unchanged by deleting every
parenthesis (keeping spaces).  Deleting the `)` of `1)2` merges the
two digit runs: `1)2` compiles to two pushes, its paren-free form
`12` to a single push of twelve. -/
theorem paren_deletion_counterexample :
    compile_rpn "1)2" = some [.push 1, .push 2]
    ∧ compile_rpn "12" = some [.push 12]
    ∧ compile_rpn "1)2" ≠ compile_rpn "12" :=
  ⟨rfl, rfl, by decide⟩

/-- C10, amended: the backend compiler emits no instruction for `(`
or `)` — it treats them exactly like the space character: replacing
every parenthesis by a space leaves the compiled instruction sequence
of every string unchanged.  Deletion also preserves it when, as in
every parser rendering, the parenthesis stands apart from the digit
runs: `3 4 ) 5 * +` compiles as `3 4   5 * +`, and the `)` emitted
into a parser rendering leaves the computed value unchanged. -/
theorem backend_skips_parens :
    (∀ s : List Char, compileChars (s.map parenToSpace) = compileChars s)
    ∧ compile_rpn "3 4 ) 5 * +" = compile_rpn "3 4   5 * +"
    ∧ (∀ r0 : Int, runRPN "3 4 ) +" r0 = runRPN "3 4 +" r0
        ∧ runRPN "3 4 ) +" r0 = some 7) :=
  ⟨fun s => (compileChars_parenToSpace s).1, rfl, fun _ => ⟨rfl, rfl⟩⟩

/-- Witness for C10 (amended) on the string `1)2` and register 0. -/
theorem backend_skips_parens_witness :
    compileChars ("1)2".data.map parenToSpace) = compileChars "1)2".data
    ∧ runRPN "3 4 ) +" 0 = some 7 :=
  ⟨backend_skips_parens.1 "1)2".data, (backend_skips_parens.2.2 0).2⟩

end JITxpr
